import Mathlib

/-!
Verification of the rivra plugin/middleware loader.

This file gives a shallow embedding of the plugin discovery and registration
subsystem of the rivra toolkit and proves properties of it.

Embedded source files:
- `packages/plugin_manager.ts` (the main loader: `registerPlugins`,
  `collectPlugins`, `collectSinglePlugin`),
- `packages_reverse/plugin_manager.ts` (the older loader variant; embedded
  names carry a `Rev` suffix),
- `packages/routes_helper.ts` (`isServerlessHandler`, `isFastifyPlugin`),
- `packages/reload.ts` (`reloadPlugins` and the `pluginHandlers` cache).

Modelling conventions:
- The filesystem is a value of the inductive type `Dirent`: a directory
  listing in `readdirSync` order, where each entry is a file (with the
  observable behaviour of dynamically importing it, a `Module`) or a
  subdirectory with its own listing.  `registerPlugins` receives
  `Option Dirent`; `none` models a root path for which `fs.existsSync`
  is false.
- A dynamically imported JS module is reduced to its loader-observable
  behaviour (`Module`): whether the import throws, whether some exported
  value is a function, a numeric `order` export, the identity of the chosen
  handler function, and its declared arity (`fn.length`).
- JS strings are Lean `String`s.  The few string primitives the loader uses
  (`endsWith`-style regex tests, `toLowerCase`, `split(sep)[0]`,
  `replace(/\x2f$/, "")`, `startsWith`, and the `\x2fapi(...)?` regex match)
  are defined here over `String.data` so that they compute by kernel
  reduction; each is documented with the JS expression it embeds.
- The effect of registration on the Fastify server is reified as a list of
  `RegEvent`s in the exact order the loop issues them; the host server
  possibly rejecting a registration call is an oracle
  `hostRejects : RegEvent → Bool`, and the registration loop returns
  `Except`, where `Except.error evs` means the loop aborted after having
  issued exactly the events `evs`.
- Handler wrapping (`fastify-plugin` and the closures built in
  `collectSinglePlugin`) is reified as the inductive `WrappedHandler`;
  `underlyingCall` gives the request-time behaviour of a wrapper: whether
  the original handler runs for a given request URL and with which argument
  shape.  The `fastify-plugin` metadata (plugin name, version range) does
  not change behaviour and is not modelled.
-/

namespace Rivra

/-! ## String primitives (JS semantics, computable over `String.data`) -/

/-- JS `s.endsWith(suf)`; used to embed the anchored regex tests
`\.(ts|js)$`, `\.md\.(ts|js)$`, `\.pg\.(ts|js)$`. -/
def strEndsWith (s suf : String) : Bool :=
  List.isSuffixOf suf.data s.data

/-- JS `s.toLowerCase()` (ASCII case folding, which is all the loader
feeds it). -/
def strToLower (s : String) : String :=
  String.mk (s.data.map Char.toLower)

/-- JS `s.startsWith(p)`; used by the per-request hook installed for scoped
plugins (`req.url.startsWith(prefix)`). -/
def strStartsWith (s p : String) : Bool :=
  List.isPrefixOf p.data s.data

/-- Characters of `s` before the first occurrence of `sep`. -/
def takeUntilSep (sep : List Char) : List Char → List Char
  | [] => []
  | c :: cs => if List.isPrefixOf sep (c :: cs) then [] else c :: takeUntilSep sep cs

/-- JS `s.split(sep)[0]` for a non-empty separator. -/
def baseBefore (sep : String) (s : String) : String :=
  String.mk (takeUntilSep sep.data s.data)

/-- JS `url.replace(\x2f\/$\x2f, "")`: drops one trailing slash if present.
This is the normalisation the route-middleware hook applies to the inbound
request path before the exact comparison. -/
def stripTrailingSlash (s : String) : String :=
  match s.data.getLast? with
  | some '/' => String.mk s.data.dropLast
  | _ => s

/-- Regex test `\.(ts|js)$` on a file name. -/
def isSourceFile (name : String) : Bool :=
  strEndsWith name ".ts" || strEndsWith name ".js"

/-- Regex test `\.md\.(ts|js)$` on a file name (route-middleware naming
convention). -/
def isMdFile (name : String) : Bool :=
  strEndsWith name ".md.ts" || strEndsWith name ".md.js"

/-- Regex test `\.pg\.(ts|js)$` on a file name (prefixed-plugin naming
convention). -/
def isPgFile (name : String) : Bool :=
  strEndsWith name ".pg.ts" || strEndsWith name ".pg.js"

/-- JS `fileName.split(".md.")[0]`. -/
def mdBase (name : String) : String := baseBefore ".md." name

/-- JS `fileName.split(".pg.")[0]`. -/
def pgBase (name : String) : String := baseBefore ".pg." name

/-- Character class `[a-zA-Z0-9_-]` of the base-prefix regex in
`registerPlugins`. -/
def isWordChar (c : Char) : Bool :=
  c.isAlpha || c.isDigit || c == '_' || c == '-'

/-- Greedy match of the regex `\x2fapi(\x2f[a-zA-Z0-9_-]+)?` at the head of
the character list: `none` if it does not match here. -/
def apiMatchAt (cs : List Char) : Option (List Char) :=
  match cs with
  | '/' :: 'a' :: 'p' :: 'i' :: rest =>
      match rest with
      | '/' :: cs2 =>
          let seg := cs2.takeWhile isWordChar
          if seg.isEmpty then some ['/', 'a', 'p', 'i']
          else some ('/' :: 'a' :: 'p' :: 'i' :: '/' :: seg)
      | _ => some ['/', 'a', 'p', 'i']
  | _ => none

/-- Leftmost match of the regex `\x2fapi(\x2f[a-zA-Z0-9_-]+)?`. -/
def apiSearch : List Char → Option (List Char)
  | [] => none
  | c :: cs =>
      match apiMatchAt (c :: cs) with
      | some m => some m
      | none => apiSearch cs

/-- JS `dir.match(\x2f\/api(\/[a-zA-Z0-9_-]+)?\x2f)` reduced to the matched
string, with `""` for no match (so that JS truthiness of `basePrefix` becomes
a test against `""`). -/
def apiBasePfx (dir : String) : String :=
  match apiSearch dir.data with
  | some m => String.mk m
  | none => ""

/-! ## Data model -/

/-- Loader-observable behaviour of dynamically importing one plugin file.
`handlerId` identifies the function chosen by
`mod.default || mod.plugin || Object.values(mod).find(isFunction)`;
`handlerArity` is its JS `fn.length`; `orderExport` is a module-level
numeric `order` export, if any. -/
structure Module where
  importThrows : Bool := false
  hasFunctionExport : Bool := true
  handlerId : Nat := 0
  handlerArity : Nat := 1
  orderExport : Option Int := none
deriving Repr, DecidableEq

/-- A directory listing in `readdirSync` order.  `file name m next` and
`dir name children next` are the entries; `next` is the remainder of the
same listing. -/
inductive Dirent where
  | nil : Dirent
  | file (name : String) (m : Module) (next : Dirent) : Dirent
  | dir (name : String) (children : Dirent) (next : Dirent) : Dirent

/-- Concatenation of two directory listings. -/
def Dirent.append : Dirent → Dirent → Dirent
  | Dirent.nil, ys => ys
  | Dirent.file n m rest, ys => Dirent.file n m (rest.append ys)
  | Dirent.dir n c rest, ys => Dirent.dir n c (rest.append ys)

/-- The wrapped handler built by `collectSinglePlugin` around the imported
function, reified by its request-time behaviour:
- `mwWrapper`: middleware wrapper `async (req, reply) => handler(req, reply)`;
- `scopedHookInstaller p`: the `fastify-plugin`-wrapped setup function that
  installs a `preHandler` hook running `handler(req, reply, app)` only when
  `req.url.startsWith(p)`;
- `globalHookInstaller`: the same setup function without the prefix guard;
- `rawHandler`: the `packages_reverse` variant, which passes the imported
  function itself (wrapped by `fastify-plugin`, which preserves behaviour)
  to `app.register`. -/
inductive WrappedHandler where
  | mwWrapper (handlerId : Nat) : WrappedHandler
  | scopedHookInstaller (pfx : String) (handlerId : Nat) : WrappedHandler
  | globalHookInstaller (handlerId : Nat) : WrappedHandler
  | rawHandler (handlerId : Nat) : WrappedHandler
deriving Repr, DecidableEq

/-- The `PluginTask` record of `plugin_manager.ts`.  The source field
`prefix` is named `pfx` here because `prefix` is a reserved word in Lean;
`filePath` is carried only for logging in the source and is dropped. -/
structure PluginTask where
  handler : WrappedHandler
  pfx : Option String := none
  order : Int := 10
  isMiddleware : Bool := false
  fileName : String := ""
  route : Option String := none
deriving Repr, DecidableEq

/-- Argument shape with which the original (unwrapped) handler is invoked. -/
inductive Invocation where
  | reqRes : Invocation
  | reqResServer : Invocation
  | serverOnly : Invocation
deriving Repr, DecidableEq

/-- Request-time behaviour of a wrapped handler: given the request URL,
whether the original handler runs, and with which argument shape.
`rawHandler` is not a per-request wrapper (the reverse variant hands it to
`app.register`, which invokes it once at setup), so it yields `none`. -/
def underlyingCall (w : WrappedHandler) (url : String) : Option Invocation :=
  match w with
  | WrappedHandler.mwWrapper _ => some Invocation.reqRes
  | WrappedHandler.scopedHookInstaller p _ =>
      if strStartsWith url p then some Invocation.reqResServer else none
  | WrappedHandler.globalHookInstaller _ => some Invocation.reqResServer
  | WrappedHandler.rawHandler _ => none

/-- A `preHandler` hook installed by the registration loop:
`routeGuarded r h` compares the trailing-slash-stripped request path with
the fixed route `r` and runs `h` only on equality; `unconditional h` runs
`h` for every request. -/
inductive Hook where
  | routeGuarded (fixedRoute : String) (h : WrappedHandler) : Hook
  | unconditional (h : WrappedHandler) : Hook
deriving Repr, DecidableEq

/-- Whether an installed hook body reaches its handler for a request with
the given raw URL (the body of the `app.addHook("preHandler", ...)` calls in
`registerPlugins`). -/
def hookFires (h : Hook) (url : String) : Bool :=
  match h with
  | Hook.routeGuarded r _ => stripTrailingSlash url == r
  | Hook.unconditional _ => true

/-- One observable registration call against the Fastify server:
`addHook` for the two middleware branches, `registerScoped p w` for
`app.register(w, \x7b prefix: p \x7d)`, `registerGlobal w` for
`app.register(w)`. -/
inductive RegEvent where
  | addHook (h : Hook) : RegEvent
  | registerScoped (pfx : String) (w : WrappedHandler) : RegEvent
  | registerGlobal (w : WrappedHandler) : RegEvent
deriving Repr, DecidableEq

/-! ## Scanner / classifier (`packages/plugin_manager.ts`) -/

/-- Body of `collectSinglePlugin` inside its `try`: the dynamic import (which
may throw, modelled as `Except.error`), the `typeof handler !== "function"`
early return (no task), the `.md.` route-middleware and `.pg.`
prefixed-plugin filename rules, the `order` export defaulting to 10, and the
construction of the wrapped handler. -/
def collectSinglePluginBody (fileName : String) (m : Module)
    (pfx0 : Option String) (isMw0 : Bool) : Except String (List PluginTask) :=
  if m.importThrows = true then Except.error fileName
  else if m.hasFunctionExport = false then Except.ok []
  else
    let route : Option String :=
      if isMdFile fileName = true then some ("/" ++ strToLower (mdBase fileName)) else none
    let isMw : Bool := if isMdFile fileName = true then true else isMw0
    let pfx : Option String :=
      if pfx0.isNone && isPgFile fileName then
        some ("/api/" ++ strToLower (pgBase fileName))
      else pfx0
    let w : WrappedHandler :=
      if isMw = true then WrappedHandler.mwWrapper m.handlerId
      else
        match pfx with
        | some p => WrappedHandler.scopedHookInstaller p m.handlerId
        | none => WrappedHandler.globalHookInstaller m.handlerId
    Except.ok [{ handler := w, pfx := pfx, order := m.orderExport.getD 10,
                 isMiddleware := isMw, fileName := fileName, route := route }]

/-- `collectSinglePlugin` of `packages/plugin_manager.ts`: the `try`/`catch`
around the body logs a failed import and contributes no task. -/
def collectSinglePlugin (fileName : String) (m : Module)
    (pfx0 : Option String) (isMw0 : Bool) : List PluginTask :=
  match collectSinglePluginBody fileName m pfx0 isMw0 with
  | Except.ok ts => ts
  | Except.error _ => []

/-- Console lines emitted by one `collectSinglePlugin` call of the main
loader.  Only the `catch` logs (`console.error` on a throwing import); the
`typeof handler !== "function"` path is a bare `return` with no console
call.  The interpolated error object after the colon is not modelled. -/
def collectSinglePluginLog (fileName : String) (m : Module) : List String :=
  if m.importThrows = true then
    ["Failed to load plugin \"" ++ fileName ++ "\":"]
  else []

/-- `collectPlugins` of `packages/plugin_manager.ts`: depth-first walk in
listing order; a subdirectory extends the prefix
(`prefix ? prefix + "/" + name.toLowerCase() : undefined`), a `.ts`/`.js`
file is collected individually, other files are skipped. -/
def collectPlugins : Dirent → Option String → Bool → List PluginTask
  | Dirent.nil, _, _ => []
  | Dirent.file name m rest, pfx, isMw =>
      (if isSourceFile name = true then collectSinglePlugin name m pfx isMw else [])
        ++ collectPlugins rest pfx isMw
  | Dirent.dir name children rest, pfx, isMw =>
      collectPlugins children (pfx.map (fun p => p ++ "/" ++ strToLower name)) isMw
        ++ collectPlugins rest pfx isMw

/-- The `fs.existsSync(dir + "/middleware") && statSync(...).isDirectory()`
check of `registerPlugins`: the listing of the first root entry literally
named `middleware`, provided it is a directory. -/
def middlewareChildren : Dirent → Option Dirent
  | Dirent.nil => none
  | Dirent.file n _ rest =>
      if n == "middleware" then none else middlewareChildren rest
  | Dirent.dir n c rest =>
      if n == "middleware" then some c else middlewareChildren rest

/-- The top-level entry loop of `registerPlugins`: entries named
`middleware` are skipped, a directory becomes a prefixed recursion with
prefix `"/api/" + name.toLowerCase()`, a `.ts`/`.js` file is collected with
no prefix. -/
def collectTop : Dirent → List PluginTask
  | Dirent.nil => []
  | Dirent.file name m rest =>
      if name == "middleware" then collectTop rest
      else
        (if isSourceFile name = true then collectSinglePlugin name m none false else [])
          ++ collectTop rest
  | Dirent.dir name children rest =>
      if name == "middleware" then collectTop rest
      else collectPlugins children (some ("/api/" ++ strToLower name)) false ++ collectTop rest

/-- The complete task list `pluginTasks` discovered by `registerPlugins`
before sorting: global middleware first (collected with no prefix and the
middleware flag forced), then the top-level loop. -/
def discoveredTasks (entries : Dirent) : List PluginTask :=
  (match middlewareChildren entries with
   | some children => collectPlugins children none true
   | none => []) ++ collectTop entries

/-! ## Sorting (`pluginTasks.sort((a, b) => a.order - b.order)`) -/

/-- Stable insertion into a sorted list: a task is placed before the first
element whose `order` is not smaller.  ECMAScript requires
`Array.prototype.sort` to be stable, so the JS sort by the comparator
`a.order - b.order` is the stable sort by `order`, which this computes. -/
def insertTask (t : PluginTask) : List PluginTask → List PluginTask
  | [] => [t]
  | u :: us => if t.order ≤ u.order then t :: u :: us else u :: insertTask t us

/-- The stable sort of the task list by ascending `order`. -/
def sortByOrder : List PluginTask → List PluginTask
  | [] => []
  | t :: ts => insertTask t (sortByOrder ts)

/-! ## Registration engine (`packages/plugin_manager.ts`) -/

/-- The dispatch per task in the registration loop of `registerPlugins`:
route middleware installs a hook guarded by exact comparison against
`"/api" + task.route`; other middleware installs an unconditional hook;
a prefixed plugin is registered scoped under
`basePrefix ? basePrefix + task.prefix : task.prefix` where `basePrefix` is
the `\x2fapi(...)?` match on the root dir path; anything else is registered
globally. -/
def registerTask (dir : String) (t : PluginTask) : RegEvent :=
  if t.isMiddleware && t.route.isSome then
    RegEvent.addHook (Hook.routeGuarded ("/api" ++ t.route.getD "") t.handler)
  else if t.isMiddleware then
    RegEvent.addHook (Hook.unconditional t.handler)
  else
    match t.pfx with
    | some p =>
        let base := apiBasePfx dir
        RegEvent.registerScoped (if base == "" then p else base ++ p) t.handler
    | none => RegEvent.registerGlobal t.handler

/-- The awaited, sequential registration loop.  `reg` maps a task to the
registration call it issues; `hostRejects` says whether the host server
throws on that call.  There is no `catch` in the loop, so a throw
propagates: the result is `Except.error evs` where `evs` are exactly the
calls issued before the throw, and no later task is processed. -/
def registerLoop (hostRejects : RegEvent → Bool) (reg : PluginTask → RegEvent) :
    List PluginTask → Except (List RegEvent) (List RegEvent)
  | [] => Except.ok []
  | t :: ts =>
      let ev := reg t
      if hostRejects ev then Except.error []
      else
        match registerLoop hostRejects reg ts with
        | Except.ok evs => Except.ok (ev :: evs)
        | Except.error evs => Except.error (ev :: evs)

/-- `registerPlugins(app, dir)` of `packages/plugin_manager.ts`:
returns immediately when the root path does not exist, otherwise collects,
sorts by `order`, and registers in sequence. -/
def registerPlugins (dir : String) (fsRoot : Option Dirent)
    (hostRejects : RegEvent → Bool) : Except (List RegEvent) (List RegEvent) :=
  match fsRoot with
  | none => Except.ok []
  | some entries => registerLoop hostRejects (registerTask dir) (sortByOrder (discoveredTasks entries))

/-! ## The `packages_reverse/plugin_manager.ts` variant -/

/-- `collectSinglePlugin` of the reverse variant: the `.pg.` rule is checked
first (only without an inherited prefix, yielding `"/" + name` with no
`/api`), then the `.md.` rule sets `prefix = prefix || "/" + name` and the
middleware flag; there is no `route` field and no per-request wrapper — the
imported function itself (behaviour-preservingly wrapped by
`fastify-plugin`) is queued.  A failed import or a module with no function
export contributes no task. -/
def collectSinglePluginRev (fileName : String) (m : Module)
    (pfx0 : Option String) (isMw0 : Bool) : List PluginTask :=
  if m.importThrows = true then []
  else if m.hasFunctionExport = false then []
  else
    let pfx1 : Option String :=
      if pfx0.isNone && isPgFile fileName then
        some ("/" ++ strToLower (pgBase fileName))
      else pfx0
    let pfx2 : Option String :=
      if isMdFile fileName = true then
        some (pfx1.getD ("/" ++ strToLower (mdBase fileName)))
      else pfx1
    let isMw : Bool := if isMdFile fileName = true then true else isMw0
    [{ handler := WrappedHandler.rawHandler m.handlerId, pfx := pfx2,
       order := m.orderExport.getD 10, isMiddleware := isMw,
       fileName := fileName, route := none }]

/-- Console lines emitted by one `collectSinglePluginRev` call of the
reverse loader: the `catch` logs a throwing import, and — unlike the main
loader — a module with no function-typed export is logged with a skip
warning (`console.warn`) before the early return. -/
def collectSinglePluginRevLog (fileName : String) (m : Module) : List String :=
  if m.importThrows = true then
    ["Failed to load plugin \"" ++ fileName ++ "\":"]
  else if m.hasFunctionExport = false then
    ["Skipped " ++ fileName ++ ": no valid export."]
  else []

/-- `collectPlugins` of the reverse variant (same walk as the main one). -/
def collectPluginsRev : Dirent → Option String → Bool → List PluginTask
  | Dirent.nil, _, _ => []
  | Dirent.file name m rest, pfx, isMw =>
      (if isSourceFile name = true then collectSinglePluginRev name m pfx isMw else [])
        ++ collectPluginsRev rest pfx isMw
  | Dirent.dir name children rest, pfx, isMw =>
      collectPluginsRev children (pfx.map (fun p => p ++ "/" ++ strToLower name)) isMw
        ++ collectPluginsRev rest pfx isMw

/-- Top-level entry loop of the reverse `registerPlugins`: directory
prefixes are `"/" + name.toLowerCase()` (no `/api`). -/
def collectTopRev : Dirent → List PluginTask
  | Dirent.nil => []
  | Dirent.file name m rest =>
      if name == "middleware" then collectTopRev rest
      else
        (if isSourceFile name = true then collectSinglePluginRev name m none false else [])
          ++ collectTopRev rest
  | Dirent.dir name children rest =>
      if name == "middleware" then collectTopRev rest
      else collectPluginsRev children (some ("/" ++ strToLower name)) false ++ collectTopRev rest

/-- Task list discovered by the reverse `registerPlugins` before sorting. -/
def discoveredTasksRev (entries : Dirent) : List PluginTask :=
  (match middlewareChildren entries with
   | some children => collectPluginsRev children none true
   | none => []) ++ collectTopRev entries

/-- Registration dispatch of the reverse variant: every task with a prefix —
middleware or not — goes through `app.register(handler, \x7b prefix \x7d)`,
and every other task through `app.register(handler)`.  No hooks are
installed by the loop. -/
def registerTaskRev (t : PluginTask) : RegEvent :=
  match t.pfx with
  | some p => RegEvent.registerScoped p t.handler
  | none => RegEvent.registerGlobal t.handler

/-- `registerPlugins` of `packages_reverse/plugin_manager.ts`. -/
def registerPluginsRev (fsRoot : Option Dirent)
    (hostRejects : RegEvent → Bool) : Except (List RegEvent) (List RegEvent) :=
  match fsRoot with
  | none => Except.ok []
  | some entries => registerLoop hostRejects registerTaskRev (sortByOrder (discoveredTasksRev entries))

/-! ## `packages/routes_helper.ts` -/

/-- `isServerlessHandler(fn)`: `fn && typeof fn === "function" &&
fn.length >= 2`, on the function-ness and arity of a JS value. -/
def isServerlessHandler (isFunction : Bool) (arity : Nat) : Bool :=
  isFunction && decide (2 ≤ arity)

/-- `isFastifyPlugin(fn)`: `fn && typeof fn === "function" &&
fn.length === 1`.  Defined in `routes_helper.ts`; the loader in
`plugin_manager.ts` never calls it. -/
def isFastifyPlugin (isFunction : Bool) (arity : Nat) : Bool :=
  isFunction && arity == 1

/-! ## `packages/reload.ts` (plugin handler cache) -/

/-- The `pluginHandlers` map, keyed by resolved file path, valued by the
identity of the freshly imported handler.  A JS `Map` preserves first
insertion order and `set` updates in place, which the association-list
operations below reproduce. -/
abbrev HandlerCache := List (String × Nat)

/-- JS `Map.prototype.set`: update the value in place if `k` is present,
append otherwise. -/
def mapSet (cache : HandlerCache) (k : String) (v : Nat) : HandlerCache :=
  if cache.any (fun q => q.1 == k) then
    cache.map (fun q => if q.1 == k then (k, v) else q)
  else cache ++ [(k, v)]

/-- The `walk` of `reloadPlugins`: depth-first in listing order; for each
`.ts`/`.js` file, a fresh import is attempted, and if it yields a function
the cache entry for the full path is set.  A throwing import is logged and
skipped; a module with no function export is skipped; entries for files not
visited are left untouched. -/
def reloadWalk : String → Dirent → HandlerCache → HandlerCache
  | _, Dirent.nil, cache => cache
  | dirPath, Dirent.dir name children rest, cache =>
      reloadWalk dirPath rest (reloadWalk (dirPath ++ "/" ++ name) children cache)
  | dirPath, Dirent.file name m rest, cache =>
      let cache1 :=
        if isSourceFile name = true then
          if m.importThrows = true then cache
          else if m.hasFunctionExport = true then
            mapSet cache (dirPath ++ "/" ++ name) m.handlerId
          else cache
        else cache
      reloadWalk dirPath rest cache1

/-- One pass of `reloadPlugins`: a missing plugin directory leaves the cache
untouched, otherwise the tree is walked and the cache updated per file. -/
def reloadPlugins (pluginDirPath : String) (fsRoot : Option Dirent)
    (cache : HandlerCache) : HandlerCache :=
  match fsRoot with
  | none => cache
  | some entries => reloadWalk pluginDirPath entries cache

/-! ## Lemmas about the stable sort -/

theorem mem_insertTask (x t : PluginTask) (l : List PluginTask) :
    x ∈ insertTask t l ↔ x = t ∨ x ∈ l := by
  induction l with
  | nil => simp [insertTask]
  | cons u us ih =>
      simp only [insertTask]
      split
      · simp only [List.mem_cons]
      · simp only [List.mem_cons, ih]
        tauto

theorem pairwise_insertTask (t : PluginTask) (l : List PluginTask)
    (h : l.Pairwise (fun a b => a.order ≤ b.order)) :
    (insertTask t l).Pairwise (fun a b => a.order ≤ b.order) := by
  induction l with
  | nil => simp [insertTask]
  | cons u us ih =>
      rcases List.pairwise_cons.mp h with ⟨hu, hus⟩
      simp only [insertTask]
      split
      · rename_i hle
        refine List.pairwise_cons.mpr ⟨?_, h⟩
        intro x hx
        rcases List.mem_cons.mp hx with rfl | hx2
        · exact hle
        · exact le_trans hle (hu x hx2)
      · rename_i hgt
        refine List.pairwise_cons.mpr ⟨?_, ih hus⟩
        intro x hx
        rcases (mem_insertTask x t us).mp hx with rfl | hx2
        · omega
        · exact hu x hx2

theorem pairwise_sortByOrder (l : List PluginTask) :
    (sortByOrder l).Pairwise (fun a b => a.order ≤ b.order) := by
  induction l with
  | nil => simp [sortByOrder]
  | cons t ts ih => exact pairwise_insertTask t (sortByOrder ts) ih

theorem filter_insertTask (t : PluginTask) (l : List PluginTask) (k : Int) :
    (insertTask t l).filter (fun u => u.order == k)
      = if t.order = k
        then t :: l.filter (fun u => u.order == k)
        else l.filter (fun u => u.order == k) := by
  induction l with
  | nil =>
      by_cases hk : t.order = k <;>
        simp [insertTask, List.filter_cons, List.filter_nil, beq_iff_eq, hk]
  | cons u us ih =>
      simp only [insertTask]
      split
      · rename_i hle
        by_cases hk : t.order = k <;> simp [List.filter_cons, hk]
      · rename_i hgt
        have hlt : u.order < t.order := by omega
        by_cases hk : t.order = k
        · have huk : ¬ u.order = k := by omega
          simp [List.filter_cons, ih, hk, huk]
        · by_cases huk : u.order = k <;> simp [List.filter_cons, ih, hk, huk]

theorem filter_sortByOrder (l : List PluginTask) (k : Int) :
    (sortByOrder l).filter (fun u => u.order == k)
      = l.filter (fun u => u.order == k) := by
  induction l with
  | nil => rfl
  | cons t ts ih =>
      simp only [sortByOrder, filter_insertTask, ih]
      by_cases hk : t.order = k <;> simp [List.filter_cons, hk]

/-! ## Lemmas about the registration loop -/

theorem registerLoop_ok (hostRejects : RegEvent → Bool) (reg : PluginTask → RegEvent)
    (l : List PluginTask) (h : ∀ u ∈ l, hostRejects (reg u) = false) :
    registerLoop hostRejects reg l = Except.ok (l.map reg) := by
  induction l with
  | nil => rfl
  | cons t ts ih =>
      have ht : hostRejects (reg t) = false := h t (List.mem_cons_self t ts)
      have hts : ∀ u ∈ ts, hostRejects (reg u) = false :=
        fun u hu => h u (List.mem_cons_of_mem t hu)
      simp [registerLoop, ht, ih hts]

theorem registerLoop_abort (hostRejects : RegEvent → Bool) (reg : PluginTask → RegEvent)
    (l1 l2 : List PluginTask) (t : PluginTask)
    (h1 : ∀ u ∈ l1, hostRejects (reg u) = false)
    (h2 : hostRejects (reg t) = true) :
    registerLoop hostRejects reg (l1 ++ t :: l2) = Except.error (l1.map reg) := by
  induction l1 with
  | nil => simp [registerLoop, h2]
  | cons u us ih =>
      have hu : hostRejects (reg u) = false := h1 u (List.mem_cons_self u us)
      have hus : ∀ x ∈ us, hostRejects (reg x) = false :=
        fun x hx => h1 x (List.mem_cons_of_mem u hx)
      simp [registerLoop, hu, ih hus]

/-! ## Lemmas about strings and the single-file collector -/

theorem stripTrailingSlash_extension (R seg : String) (h : seg ≠ "") :
    stripTrailingSlash (R ++ "/" ++ seg) ≠ R := by
  have hseg : seg.data ≠ [] := fun h0 => h (String.ext h0)
  have hlen : 1 ≤ seg.data.length := by
    cases hd : seg.data with
    | nil => exact absurd hd hseg
    | cons a as => simp
  have hud : (R ++ "/" ++ seg).data = (R.data ++ ['/']) ++ seg.data := rfl
  intro he
  unfold stripTrailingSlash at he
  split at he
  · rename_i heq
    have hd : (R ++ "/" ++ seg).data.dropLast = R.data := congrArg String.data he
    have hl := congrArg List.length hd
    rw [List.length_dropLast, hud] at hl
    simp only [List.length_append, List.length_cons, List.length_nil] at hl
    omega
  · have hd : (R ++ "/" ++ seg).data = R.data := congrArg String.data he
    have hl := congrArg List.length hd
    rw [hud] at hl
    simp only [List.length_append, List.length_cons, List.length_nil] at hl
    omega

theorem collectSinglePlugin_throw (fileName : String) (m : Module)
    (pfx0 : Option String) (isMw0 : Bool) (h : m.importThrows = true) :
    collectSinglePlugin fileName m pfx0 isMw0 = [] := by
  simp [collectSinglePlugin, collectSinglePluginBody, h]

theorem collectSinglePlugin_noFn (fileName : String) (m : Module)
    (pfx0 : Option String) (isMw0 : Bool)
    (h1 : m.importThrows = false) (h2 : m.hasFunctionExport = false) :
    collectSinglePlugin fileName m pfx0 isMw0 = [] := by
  simp [collectSinglePlugin, collectSinglePluginBody, h1, h2]

theorem collectSinglePlugin_ok (fileName : String) (m : Module)
    (pfx0 : Option String) (isMw0 : Bool)
    (h1 : m.importThrows = false) (h2 : m.hasFunctionExport = true) :
    collectSinglePlugin fileName m pfx0 isMw0
      = [{ handler :=
             (if (if isMdFile fileName = true then true else isMw0) = true
              then WrappedHandler.mwWrapper m.handlerId
              else
                match (if pfx0.isNone && isPgFile fileName
                       then some ("/api/" ++ strToLower (pgBase fileName))
                       else pfx0) with
                | some p => WrappedHandler.scopedHookInstaller p m.handlerId
                | none => WrappedHandler.globalHookInstaller m.handlerId),
           pfx := (if pfx0.isNone && isPgFile fileName
                   then some ("/api/" ++ strToLower (pgBase fileName)) else pfx0),
           order := m.orderExport.getD 10,
           isMiddleware := (if isMdFile fileName = true then true else isMw0),
           fileName := fileName,
           route := (if isMdFile fileName = true
                     then some ("/" ++ strToLower (mdBase fileName)) else none) }] := by
  simp [collectSinglePlugin, collectSinglePluginBody, h1, h2]

/-! ## Claim theorems -/

/-- C1: for every discovered task list, registration proceeds over the
stable sort of the tasks by ascending `order`: the sequence of registration
calls is exactly the sorted task list mapped through the dispatch, the
sorted list is ascending in `order`, and the sort is stable — for every
order value `k`, the subsequence of tasks with `order = k` is identical (as
a sequence) to the one in discovery order, so equal-`order` tasks are
registered, and hence install their same-phase hooks, in discovery order. -/
theorem registerPlugins_ascending_stable (dir : String) (entries : Dirent) :
    registerPlugins dir (some entries) (fun _ => false)
      = Except.ok ((sortByOrder (discoveredTasks entries)).map (registerTask dir))
    ∧ (sortByOrder (discoveredTasks entries)).Pairwise (fun a b => a.order ≤ b.order)
    ∧ ∀ k : Int,
        (sortByOrder (discoveredTasks entries)).filter (fun u => u.order == k)
          = (discoveredTasks entries).filter (fun u => u.order == k) := by
  refine ⟨?_, pairwise_sortByOrder _, fun k => filter_sortByOrder _ k⟩
  exact registerLoop_ok _ _ _ (fun u _ => rfl)

/-- C2: a route-scoped middleware task (middleware flag set and a route
present) is registered as a hook guarded by exact comparison: the hook body
reaches the handler exactly when the inbound request path with a trailing
slash stripped equals the fixed route the loop computed for the task, and in
particular it never fires for a strict path extension of that route. -/
theorem routeMiddleware_exact_match (dir url : String) (t : PluginTask) (r : String)
    (hmw : t.isMiddleware = true) (hr : t.route = some r) :
    registerTask dir t = RegEvent.addHook (Hook.routeGuarded ("/api" ++ r) t.handler)
    ∧ (hookFires (Hook.routeGuarded ("/api" ++ r) t.handler) url = true
        ↔ stripTrailingSlash url = "/api" ++ r)
    ∧ ∀ seg : String, seg ≠ "" →
        hookFires (Hook.routeGuarded ("/api" ++ r) t.handler)
          ("/api" ++ r ++ "/" ++ seg) = false := by
  refine ⟨?_, ?_, ?_⟩
  · simp [registerTask, hmw, hr]
  · simp [hookFires]
  · intro seg hseg
    simp only [hookFires, beq_eq_false_iff_ne, ne_eq]
    exact stripTrailingSlash_extension ("/api" ++ r) seg hseg

/-- Witness for C2 at a concrete input: the hook for route `/checkout`
(fixed route `/api/checkout`) does not fire for the strict extension
`/api/checkout/items`. -/
theorem routeMiddleware_exact_match_witness :
    hookFires (Hook.routeGuarded ("/api" ++ "/checkout") (WrappedHandler.mwWrapper 1))
      ("/api" ++ "/checkout" ++ "/" ++ "items") = false :=
  (routeMiddleware_exact_match "/plugins" "/api/checkout/items"
      { handler := WrappedHandler.mwWrapper 1, isMiddleware := true,
        fileName := "checkout.md.ts", route := some "/checkout" }
      "/checkout" rfl rfl).2.2 "items" (by decide)

/-- C3 counterexample: the claim asserts that every file under the
root-level `middleware` directory yields a task with no prefix regardless of
its own filename pattern, but a `.pg.`-named file there still receives the
filename-derived prefix: `middleware/track.pg.ts` yields a task with
`isMiddleware = true` and prefix `/api/track`, not no prefix. -/
theorem middleware_pgFile_keeps_filename_pfx :
    (discoveredTasks (Dirent.dir "middleware"
        (Dirent.file "track.pg.ts" { handlerId := 7 } Dirent.nil) Dirent.nil)).map
      (fun t => (t.isMiddleware, t.pfx))
      = [(true, some "/api/track")] := rfl

/-- C3 (amended): every file collected (at any depth) under the root-level
`middleware` directory yields a task with `isMiddleware = true` and never a
directory-derived prefix; however a file whose own name matches the `.pg.`
pattern still receives the filename-derived prefix `/api/<name>`, because
the `.pg.` rule only requires the absence of an inherited directory prefix
(middleware registration then ignores the prefix field). -/
theorem collectPlugins_middleware_ctx (d : Dirent) (t : PluginTask)
    (ht : t ∈ collectPlugins d none true) :
    t.isMiddleware = true
    ∧ t.pfx = (if isPgFile t.fileName = true
               then some ("/api/" ++ strToLower (pgBase t.fileName)) else none) := by
  induction d with
  | nil => simp [collectPlugins] at ht
  | file name m rest ih =>
      simp only [collectPlugins, List.mem_append] at ht
      rcases ht with h1 | h2
      · by_cases hs : isSourceFile name = true
        · rw [if_pos hs] at h1
          by_cases hthrow : m.importThrows = true
          · rw [collectSinglePlugin_throw name m none true hthrow] at h1
            simp at h1
          · by_cases hfn : m.hasFunctionExport = true
            · rw [collectSinglePlugin_ok name m none true
                  (by simpa using hthrow) hfn] at h1
              rcases List.mem_singleton.mp h1 with rfl
              refine ⟨by simp, ?_⟩
              simp
            · rw [collectSinglePlugin_noFn name m none true
                  (by simpa using hthrow) (by simpa using hfn)] at h1
              simp at h1
        · rw [if_neg hs] at h1
          simp at h1
      · exact ih h2
  | dir name children rest ihc ihr =>
      simp only [collectPlugins, Option.map_none', List.mem_append] at ht
      rcases ht with h1 | h2
      · exact ihc h1
      · exact ihr h2

/-- Witness for C3 (amended) at a concrete input: the task of
`middleware/track.pg.ts`. -/
theorem collectPlugins_middleware_ctx_witness :
    ({ handler := WrappedHandler.mwWrapper 7, pfx := some "/api/track",
       order := 10, isMiddleware := true, fileName := "track.pg.ts",
       route := none } : PluginTask).isMiddleware = true
    ∧ ({ handler := WrappedHandler.mwWrapper 7, pfx := some "/api/track",
         order := 10, isMiddleware := true, fileName := "track.pg.ts",
         route := none } : PluginTask).pfx
        = (if isPgFile "track.pg.ts" = true
           then some ("/api/" ++ strToLower (pgBase "track.pg.ts")) else none) :=
  collectPlugins_middleware_ctx
    (Dirent.file "track.pg.ts" { handlerId := 7 } Dirent.nil)
    { handler := WrappedHandler.mwWrapper 7, pfx := some "/api/track",
      order := 10, isMiddleware := true, fileName := "track.pg.ts",
      route := none }
    (by decide)

/-- C4: for a `.pg.`-named file discovered inside a prefixed directory, the
directory-derived prefix wins: the task carries exactly the inherited
prefix, in both loader variants; the filename-derived `.pg.` prefix is used
only when no directory-derived prefix exists. -/
theorem dirPfx_wins_over_pgPfx (fileName : String) (m : Module) (p : String)
    (isMw0 : Bool) (h1 : m.importThrows = false) (h2 : m.hasFunctionExport = true) :
    (∀ t ∈ collectSinglePlugin fileName m (some p) isMw0, t.pfx = some p)
    ∧ (∀ t ∈ collectSinglePluginRev fileName m (some p) isMw0, t.pfx = some p)
    ∧ (isPgFile fileName = true →
        ∀ t ∈ collectSinglePlugin fileName m none isMw0,
          t.pfx = some ("/api/" ++ strToLower (pgBase fileName))) := by
  refine ⟨?_, ?_, ?_⟩
  · intro t ht
    rw [collectSinglePlugin_ok fileName m (some p) isMw0 h1 h2] at ht
    rcases List.mem_singleton.mp ht with rfl
    simp
  · intro t ht
    simp only [collectSinglePluginRev, h1, h2] at ht
    simp only [Bool.false_eq_true, if_false, if_true, Option.isNone_some,
      Bool.false_and, Option.getD_some] at ht
    rcases List.mem_singleton.mp ht with rfl
    simp
  · intro hpg t ht
    rw [collectSinglePlugin_ok fileName m none isMw0 h1 h2] at ht
    rcases List.mem_singleton.mp ht with rfl
    simp [hpg]

/-- Witness for C4 at a concrete input: `users/checkout.pg.ts` (inherited
directory prefix `/api/users`) keeps the directory prefix. -/
theorem dirPfx_wins_over_pgPfx_witness :
    ({ handler := WrappedHandler.scopedHookInstaller "/api/users" 5,
       pfx := some "/api/users", order := 10, isMiddleware := false,
       fileName := "checkout.pg.ts", route := none } : PluginTask).pfx
      = some "/api/users" :=
  (dirPfx_wins_over_pgPfx "checkout.pg.ts" { handlerId := 5 } "/api/users" false
      rfl rfl).1
    { handler := WrappedHandler.scopedHookInstaller "/api/users" 5,
      pfx := some "/api/users", order := 10, isMiddleware := false,
      fileName := "checkout.pg.ts", route := none }
    (by decide)

/-- C5 counterexample: the claim fails on the `packages_reverse` variant —
a root-level route-middleware file `auth.md.ts` produces a middleware task
with prefix `/auth`, and its registration is a server-level prefixed
register call, not a hook with an in-body URL comparison. -/
theorem reverse_middleware_prefixed_register :
    registerPluginsRev
        (some (Dirent.file "auth.md.ts" { handlerId := 3 } Dirent.nil))
        (fun _ => false)
      = Except.ok [RegEvent.registerScoped "/auth" (WrappedHandler.rawHandler 3)]
    ∧ (discoveredTasksRev (Dirent.file "auth.md.ts" { handlerId := 3 } Dirent.nil)).map
        (fun t => t.isMiddleware) = [true] :=
  ⟨rfl, rfl⟩

/-- C5 (amended): in the main loader (`packages/plugin_manager.ts`) a
middleware task is always registered through `addHook` — never through a
prefixed register call — and the only path scoping a route-guarded hook
applies is the request-URL comparison in its body; the `packages_reverse`
variant, by contrast, registers a middleware task that carries a prefix
through a server-level prefixed register call. -/
theorem middleware_never_prefixed_main (dir : String) (t : PluginTask)
    (hmw : t.isMiddleware = true) :
    registerTask dir t
      = RegEvent.addHook
          (match t.route with
           | some r => Hook.routeGuarded ("/api" ++ r) t.handler
           | none => Hook.unconditional t.handler)
    ∧ ∀ (r url : String),
        hookFires (Hook.routeGuarded r t.handler) url
          = (stripTrailingSlash url == r) := by
  refine ⟨?_, fun r url => rfl⟩
  rcases hr : t.route with _ | r
  · simp [registerTask, hmw, hr]
  · simp [registerTask, hmw, hr]

/-- Witness for C5 (amended) at a concrete input: a global middleware task
registers as an unconditional hook. -/
theorem middleware_never_prefixed_main_witness :
    registerTask "/plugins"
        { handler := WrappedHandler.mwWrapper 9, isMiddleware := true }
      = RegEvent.addHook (Hook.unconditional (WrappedHandler.mwWrapper 9)) :=
  (middleware_never_prefixed_main "/plugins"
      { handler := WrappedHandler.mwWrapper 9, isMiddleware := true } rfl).1

/-- C6 counterexample: an arity-1 non-middleware module — exactly what
`isFastifyPlugin` classifies as a setup-style plugin — is nevertheless
wrapped into a hook-installing setup function whose per-request behaviour
invokes the original handler with `(req, reply, app)`, never with only the
server, so load-time classification is not by declared arity. -/
theorem arity1_wrapped_as_request_hook :
    isFastifyPlugin true 1 = true
    ∧ (collectSinglePlugin "setup.ts" { handlerId := 4, handlerArity := 1 }
        none false).map (fun t => t.handler)
        = [WrappedHandler.globalHookInstaller 4]
    ∧ underlyingCall (WrappedHandler.globalHookInstaller 4) "/any"
        = some Invocation.reqResServer :=
  ⟨rfl, rfl, rfl⟩

/-- C6 (amended): the loader does not classify non-middleware handlers by
arity.  The collected task is literally independent of the handler arity,
and every non-middleware task carries a hook-installing wrapper whose
request-time behaviour either skips the handler (scoped installer on a
non-matching URL) or invokes it with `(req, reply, app)` — never with only
the server.  The arity predicates of `routes_helper.ts` do encode the
claimed thresholds (arity 1 / arity at least 2) but are never consulted by
`collectSinglePlugin`. -/
theorem collectSinglePlugin_ignores_arity (fileName : String) (m : Module)
    (pfx0 : Option String) (isMw0 : Bool) (a : Nat) :
    collectSinglePlugin fileName { m with handlerArity := a } pfx0 isMw0
      = collectSinglePlugin fileName m pfx0 isMw0
    ∧ (∀ t ∈ collectSinglePlugin fileName m pfx0 isMw0,
        t.isMiddleware = false → ∀ url : String,
          underlyingCall t.handler url = none
          ∨ underlyingCall t.handler url = some Invocation.reqResServer)
    ∧ isFastifyPlugin true 1 = true ∧ isServerlessHandler true 2 = true := by
  refine ⟨rfl, ?_, rfl, rfl⟩
  intro t ht hmwf url
  by_cases hthrow : m.importThrows = true
  · rw [collectSinglePlugin_throw fileName m pfx0 isMw0 hthrow] at ht
    simp at ht
  · by_cases hfn : m.hasFunctionExport = true
    · rw [collectSinglePlugin_ok fileName m pfx0 isMw0 (by simpa using hthrow) hfn] at ht
      rcases List.mem_singleton.mp ht with rfl
      simp only at hmwf
      rcases hpfx : (if pfx0.isNone && isPgFile fileName
          then some ("/api/" ++ strToLower (pgBase fileName)) else pfx0) with _ | p
      · right
        simp [underlyingCall, hmwf, hpfx]
      · by_cases hst : strStartsWith url p = true
        · right
          simp [underlyingCall, hmwf, hpfx, hst]
        · left
          simp [underlyingCall, hmwf, hpfx, hst]
    · rw [collectSinglePlugin_noFn fileName m pfx0 isMw0 (by simpa using hthrow)
          (by simpa using hfn)] at ht
      simp at ht

/-- Witness for C6 (amended) at a concrete input: the task of a
non-middleware arity-3 logic handler is invoked with `(req, reply, app)`
per request, not with only the server. -/
theorem collectSinglePlugin_ignores_arity_witness :
    underlyingCall
        ({ handler := WrappedHandler.globalHookInstaller 8, pfx := none,
           order := 10, isMiddleware := false, fileName := "logic.ts",
           route := none } : PluginTask).handler "/x" = none
    ∨ underlyingCall
        ({ handler := WrappedHandler.globalHookInstaller 8, pfx := none,
           order := 10, isMiddleware := false, fileName := "logic.ts",
           route := none } : PluginTask).handler "/x"
        = some Invocation.reqResServer :=
  (collectSinglePlugin_ignores_arity "logic.ts" { handlerId := 8, handlerArity := 3 }
      none false 3).2.1
    { handler := WrappedHandler.globalHookInstaller 8, pfx := none,
      order := 10, isMiddleware := false, fileName := "logic.ts", route := none }
    (by decide) rfl "/x"

/-- C7 counterexample: the claim says a module exporting no function-typed
value is logged and excluded, but the main loader excludes such a module
with a bare return and no console call: `empty.ts` with no function export
contributes no task, the main loader emits no log line for it, while the
reverse variant does log a skip warning — so the logging conjunct is false
for the main loader. -/
theorem noFnExport_excluded_but_unlogged :
    collectSinglePlugin "empty.ts" { hasFunctionExport := false } none false = []
    ∧ collectSinglePluginLog "empty.ts" { hasFunctionExport := false } = []
    ∧ collectSinglePluginRevLog "empty.ts" { hasFunctionExport := false }
        = ["Skipped empty.ts: no valid export."] :=
  ⟨rfl, rfl, rfl⟩

/-- C7 (amended): a module that throws during dynamic import raises inside
the collector body, is logged by the surrounding catch, and is excluded
from the task list; a module exporting no function-typed value is excluded
silently by the main loader — a bare return with no console call (only the
reverse variant logs a skip warning for it); and in both cases the scan
continues to completion: the task list of any listing containing the bad
file is exactly the concatenation of the task lists of the entries before
and after it, so such a module never causes the overall scan to throw or
abort. -/
theorem badModule_skipped_scan_continues (fileName : String) (m : Module)
    (pfx0 : Option String) (isMw0 : Bool)
    (hbad : m.importThrows = true ∨ m.hasFunctionExport = false) :
    (m.importThrows = true →
        collectSinglePluginBody fileName m pfx0 isMw0 = Except.error fileName
        ∧ collectSinglePluginLog fileName m
            = ["Failed to load plugin \"" ++ fileName ++ "\":"])
    ∧ (m.importThrows = false → m.hasFunctionExport = false →
        collectSinglePluginLog fileName m = []
        ∧ collectSinglePluginRevLog fileName m
            = ["Skipped " ++ fileName ++ ": no valid export."])
    ∧ collectSinglePlugin fileName m pfx0 isMw0 = []
    ∧ ∀ (pre post : Dirent),
        collectPlugins (pre.append (Dirent.file fileName m post)) pfx0 isMw0
          = collectPlugins pre pfx0 isMw0 ++ collectPlugins post pfx0 isMw0 := by
  have hnil : collectSinglePlugin fileName m pfx0 isMw0 = [] := by
    by_cases hthrow : m.importThrows = true
    · exact collectSinglePlugin_throw fileName m pfx0 isMw0 hthrow
    · rcases hbad with h | h
      · exact absurd h hthrow
      · exact collectSinglePlugin_noFn fileName m pfx0 isMw0 (by simpa using hthrow) h
  refine ⟨?_, ?_, hnil, ?_⟩
  · intro h
    constructor
    · simp [collectSinglePluginBody, h]
    · simp [collectSinglePluginLog, h]
  · intro hthrow hfn
    constructor
    · simp [collectSinglePluginLog, hthrow]
    · simp [collectSinglePluginRevLog, hthrow, hfn]
  · intro pre post
    induction pre with
    | nil => simp [Dirent.append, collectPlugins, hnil]
    | file n mm rest ih =>
        simp [Dirent.append, collectPlugins, ih, List.append_assoc]
    | dir n c rest ihc ihr =>
        simp [Dirent.append, collectPlugins, ihr, List.append_assoc]

/-- Witness for C7 (amended) at a concrete input: a throwing module is
logged and contributes no task. -/
theorem badModule_skipped_scan_continues_witness :
    (collectSinglePluginBody "broken.ts" { importThrows := true } none false
        = Except.error "broken.ts"
      ∧ collectSinglePluginLog "broken.ts" { importThrows := true }
          = ["Failed to load plugin \"" ++ "broken.ts" ++ "\":"])
    ∧ collectSinglePlugin "broken.ts" { importThrows := true } none false = [] :=
  ⟨(badModule_skipped_scan_continues "broken.ts" { importThrows := true } none false
      (Or.inl rfl)).1 rfl,
   (badModule_skipped_scan_continues "broken.ts" { importThrows := true } none false
      (Or.inl rfl)).2.2.1⟩

/-! ## Lemmas about the reload cache -/

theorem mapSet_any_key (cache : HandlerCache) (k2 : String) (v : Nat) (k : String)
    (h : cache.any (fun q => q.1 == k) = true) :
    (mapSet cache k2 v).any (fun q => q.1 == k) = true := by
  unfold mapSet
  split
  · rw [List.any_eq_true] at h ⊢
    rcases h with ⟨q, hq, hqk⟩
    refine ⟨if q.1 == k2 then (k2, v) else q, List.mem_map_of_mem _ hq, ?_⟩
    by_cases hq2 : q.1 == k2
    · have hk2 : q.1 = k2 := by simpa using hq2
      simp only [hq2, if_true]
      rw [← hk2]
      exact hqk
    · simp only [hq2]
      simpa [hq2] using hqk
  · rw [List.any_append, h, Bool.true_or]

theorem reloadWalk_any_key (d : Dirent) : ∀ (dirPath : String) (cache : HandlerCache)
    (k : String), cache.any (fun q => q.1 == k) = true →
    (reloadWalk dirPath d cache).any (fun q => q.1 == k) = true := by
  induction d with
  | nil =>
      intro dp c k h
      simpa [reloadWalk] using h
  | file name m rest ih =>
      intro dp c k h
      simp only [reloadWalk]
      apply ih
      split
      · split
        · exact h
        · split
          · exact mapSet_any_key c (dp ++ "/" ++ name) m.handlerId k h
          · exact h
      · exact h
  | dir name children rest ihc ihr =>
      intro dp c k h
      simp only [reloadWalk]
      exact ihr dp _ k (ihc (dp ++ "/" ++ name) c k h)

/-- C9 counterexample: the plugin handler cache is not replaced by a reload
pass.  After a pass over a tree containing only `gone.ts` and a second pass
over an empty tree, the stale entry for the removed file is still present,
whereas a fully replaced cache would be empty after the second pass. -/
theorem removed_file_survives_reload :
    reloadPlugins "/plugins" (some Dirent.nil)
        (reloadPlugins "/plugins"
          (some (Dirent.file "gone.ts" { handlerId := 9 } Dirent.nil)) [])
      = [("/plugins/gone.ts", 9)]
    ∧ ([("/plugins/gone.ts", 9)] : HandlerCache) ≠ ([] : HandlerCache) :=
  ⟨rfl, by decide⟩

/-- C9 (amended): a reload pass merges into the cache rather than replacing
it: it upserts one entry per plugin file found and never clears, so every
key present before the pass — including keys of files since removed from
the tree — is still present after it. -/
theorem reloadPlugins_preserves_keys (dirPath : String) (fsRoot : Option Dirent)
    (cache : HandlerCache) (k : String)
    (h : cache.any (fun q => q.1 == k) = true) :
    (reloadPlugins dirPath fsRoot cache).any (fun q => q.1 == k) = true := by
  cases fsRoot with
  | none => simpa [reloadPlugins] using h
  | some entries => exact reloadWalk_any_key entries dirPath cache k h

/-- Witness for C9 (amended) at a concrete input: the stale key survives a
pass over an empty tree. -/
theorem reloadPlugins_preserves_keys_witness :
    (reloadPlugins "/plugins" (some Dirent.nil) [("/plugins/gone.ts", 9)]).any
      (fun q => q.1 == "/plugins/gone.ts") = true :=
  reloadPlugins_preserves_keys "/plugins" (some Dirent.nil)
    [("/plugins/gone.ts", 9)] "/plugins/gone.ts" (by decide)

/-- C10: when the root directory does not exist on the filesystem,
`registerPlugins` returns normally having issued no registration call at
all, whatever the host server would have done. -/
theorem registerPlugins_missing_dir (dir : String) (hostRejects : RegEvent → Bool) :
    registerPlugins dir none hostRejects = Except.ok [] := rfl

/-- C8: when the host server throws on the registration call of some task,
the exception propagates out of the registration loop of `registerPlugins`
(which has no catch): the loop result is the error carrying exactly the
calls of the tasks before the failing one, so no subsequent task is
registered; and `registerPlugins` on an existing directory is exactly this
loop over the sorted task list. -/
theorem registerPlugins_rejection_aborts (hostRejects : RegEvent → Bool) (dir : String)
    (l1 l2 : List PluginTask) (t : PluginTask)
    (h1 : ∀ u ∈ l1, hostRejects (registerTask dir u) = false)
    (h2 : hostRejects (registerTask dir t) = true) :
    registerLoop hostRejects (registerTask dir) (l1 ++ t :: l2)
      = Except.error (l1.map (registerTask dir))
    ∧ ∀ entries : Dirent,
        registerPlugins dir (some entries) hostRejects
          = registerLoop hostRejects (registerTask dir) (sortByOrder (discoveredTasks entries)) :=
  ⟨registerLoop_abort hostRejects (registerTask dir) l1 l2 t h1 h2, fun _ => rfl⟩

/-- Witness for C8 at a concrete input: with a host that rejects every
call, a one-task list aborts with no call issued. -/
theorem registerPlugins_rejection_aborts_witness :
    registerLoop (fun _ => true) (registerTask "/plugins")
      ([] ++ { handler := WrappedHandler.globalHookInstaller 2 } :: [])
      = Except.error ([].map (registerTask "/plugins")) :=
  (registerPlugins_rejection_aborts (fun _ => true) "/plugins" [] []
      { handler := WrappedHandler.globalHookInstaller 2 }
      (fun u hu => absurd hu (List.not_mem_nil u)) rfl).1

end Rivra
